import Mathlib

/-!
# Verification of the FMSF20 statistics-course visualization functions

Shallow embedding of the three source files of the repository:

* `lab2/harvest.py` — joint, marginal and conditional densities of a compound
  binomial–Poisson model, with a log-space normalization for the conditional;
* `lab3/skattningar.py` — Monte-Carlo illustration of mean/variance estimators
  and confidence intervals;
* `lab3/styrkefkn.py` — power function of a one-sample test for a normal mean.

Machine floats are embedded as exact reals.  The IEEE value `-inf`, which the
source produces via `log(0)` and assigns explicitly to the first entry of the
conditional vector, is embedded as `⊥ : WithBot ℝ`; `exp` maps it to `0`
exactly as IEEE arithmetic does.  Library calls (`scipy.stats` pmfs, cdfs and
quantiles, `np.sign`, `np.var`) are embedded by their mathematical
definitions.  Random draws (`stats.norm.rvs`) are embedded as explicit data
parameters: every theorem quantifies over the sampled values.
-/

open Finset

namespace Harvest

/-- `scipy.stats.binom.pmf k n p`: the binomial probability mass function
`C(n,k) pᵏ (1-p)^(n-k)` (zero for `k > n` since `C(n,k) = 0` there). -/
noncomputable def binomPmf (n : ℕ) (p : ℝ) (k : ℕ) : ℝ :=
  (n.choose k : ℝ) * p ^ k * (1 - p) ^ (n - k)

/-- `scipy.stats.poisson.pmf l lam`: the Poisson probability mass function
`exp(-lam) lamˡ / l!`.  For `lam = 0` this gives `1` at `l = 0` and `0`
elsewhere, matching `scipy`. -/
noncomputable def poissonPmf (lam : ℝ) (l : ℕ) : ℝ :=
  Real.exp (-lam) * lam ^ l / (l.factorial : ℝ)

/-- `tot_E + 4*np.sqrt(tot_V)` with `tot_E = n*p*mu` and
`tot_V = tot_E*(1+mu*(1-p))`: the base upper bound for the `Y` support. -/
noncomputable def YmaxBase (n : ℕ) (p mu : ℝ) : ℝ :=
  n * p * mu + 4 * Real.sqrt ((n * p * mu) * (1 + mu * (1 - p)))

/-- `Ymax`, after the `if not (y_cond is None): Ymax = max([Ymax, y_cond])`
extension step. -/
noncomputable def Ymax (n : ℕ) (p mu : ℝ) : Option ℝ → ℝ
  | none => YmaxBase n p mu
  | some y => max (YmaxBase n p mu) y

/-- The number of points of the `y = np.arange(Ymax+1)` support vector
(`np.arange` of a real stop value produces `⌈stop⌉` integers `0,1,…`). -/
noncomputable def Ynum (n : ℕ) (p mu : ℝ) (yc : Option ℝ) : ℕ :=
  Nat.ceil (Ymax n p mu yc + 1)

/-- `pXY = stats.binom.pmf(X_in,n,p) * stats.poisson.pmf(Y_in,X_in*mu)`:
entry of the joint probability table at grown count `k`, harvested count `l`. -/
noncomputable def pXY (n : ℕ) (p mu : ℝ) (k l : ℕ) : ℝ :=
  binomPmf n p k * poissonPmf (k * mu) l

/-- `pY = pXY.sum(axis=1)`: the marginal of the harvested count, obtained by
summing the joint table over the grown-count axis `k = 0..n` for each `l`. -/
noncomputable def pY (n : ℕ) (p mu : ℝ) (l : ℕ) : ℝ :=
  ∑ k in range (n + 1), pXY n p mu k l

/-- IEEE `np.log` restricted to the nonnegative inputs that occur here:
`log 0 = -inf` (the value `⊥`), and the real logarithm on positive inputs. -/
noncomputable def logW (t : ℝ) : WithBot ℝ :=
  if t ≤ 0 then ⊥ else ((Real.log t : ℝ) : WithBot ℝ)

/-- The log-space vector of the conditional computation, after the three
assignment steps of the source:
`pX_Y = np.log(stats.binom.pmf(x,n,p)) - x*mu`, then
`pX_Y[1:] = pX_Y[1:] + y_cond*np.log(x[1:]*mu)`, then
`pX_Y[0] = -np.Inf`.  An IEEE `-inf` produced by `log 0` stays `-inf` under
the finite additions, which the `⊥` case of `recBotCoe` reproduces. -/
noncomputable def logCond (n : ℕ) (p mu yc : ℝ) (k : ℕ) : WithBot ℝ :=
  if k = 0 then ⊥
  else
    WithBot.recBotCoe ⊥
      (fun v => (((v - k * mu + yc * Real.log (k * mu) : ℝ)) : WithBot ℝ))
      (logW (binomPmf n p k))

/-- `max(pX_Y)` over the whole log-space vector (indices `0..n`); the `⊥`
entry at index `0` never exceeds a finite entry.  The junk value `0` of
`unbot'` is only reached when every entry is `-inf`. -/
noncomputable def logCondMax (n : ℕ) (p mu yc : ℝ) : ℝ :=
  (((range (n + 1)).sup (logCond n p mu yc))).unbot' 0

/-- `pX_Y = np.exp(pX_Y - max(pX_Y))`: shift by the maximum and exponentiate;
`exp(-inf) = 0` exactly as in IEEE arithmetic. -/
noncomputable def pX_Yunnorm (n : ℕ) (p mu yc : ℝ) (k : ℕ) : ℝ :=
  WithBot.recBotCoe 0 (fun v => Real.exp (v - logCondMax n p mu yc))
    (logCond n p mu yc k)

/-- `pX_Y = pX_Y / sum(pX_Y)`: the normalized conditional vector
`P(X = k | Y = y_cond)` over `k = 0..n`. -/
noncomputable def pX_Y (n : ℕ) (p mu yc : ℝ) (k : ℕ) : ℝ :=
  pX_Yunnorm n p mu yc k / ∑ j in range (n + 1), pX_Yunnorm n p mu yc j

/-- The direct-space reference computation from the source comment
`# pX_Y = stats.binom.pmf(x,n,p)*stats.poisson.pmf(y_cond,x*mu)`,
written for an integer observed yield. -/
noncomputable def pX_Ynaive (n : ℕ) (p mu : ℝ) (yc : ℕ) (k : ℕ) : ℝ :=
  binomPmf n p k * poissonPmf (k * mu) yc

/-- The direct-space reference, normalized to sum to 1. -/
noncomputable def pX_YnaiveNorm (n : ℕ) (p mu : ℝ) (yc : ℕ) (k : ℕ) : ℝ :=
  pX_Ynaive n p mu yc k / ∑ j in range (n + 1), pX_Ynaive n p mu yc j

lemma binomPmf_self (n : ℕ) (p : ℝ) : binomPmf n p n = p ^ n := by
  simp [binomPmf]

lemma pX_Yunnorm_nonneg (n : ℕ) (p mu yc : ℝ) (k : ℕ) :
    0 ≤ pX_Yunnorm n p mu yc k := by
  unfold pX_Yunnorm
  induction logCond n p mu yc k using WithBot.recBotCoe with
  | bot => simp
  | coe v => simpa using (Real.exp_pos _).le

lemma pX_Yunnorm_last_pos (n : ℕ) (p mu yc : ℝ) (hn : n ≠ 0) (hp0 : 0 < p) :
    0 < pX_Yunnorm n p mu yc n := by
  have hb : (0 : ℝ) < binomPmf n p n := by
    rw [binomPmf_self]; positivity
  unfold pX_Yunnorm logCond logW
  rw [if_neg hn, if_neg (not_le.2 hb)]
  simpa using Real.exp_pos _

lemma pX_Yunnorm_sum_pos (n : ℕ) (p mu yc : ℝ) (hn : 1 ≤ n) (hp0 : 0 < p) :
    0 < ∑ j in range (n + 1), pX_Yunnorm n p mu yc j :=
  Finset.sum_pos' (fun j _ => pX_Yunnorm_nonneg n p mu yc j)
    ⟨n, mem_range.2 (Nat.lt_succ_self n),
      pX_Yunnorm_last_pos n p mu yc (by omega) hp0⟩

lemma pX_Y_sum_one (n : ℕ) (p mu yc : ℝ) (hn : 1 ≤ n) (hp0 : 0 < p) :
    (∑ k in range (n + 1), pX_Y n p mu yc k) = 1 := by
  have hS := pX_Yunnorm_sum_pos n p mu yc hn hp0
  unfold pX_Y
  rw [← Finset.sum_div, div_self hS.ne']

lemma pX_Y_apply_zero (n : ℕ) (p mu yc : ℝ) : pX_Y n p mu yc 0 = 0 := by
  unfold pX_Y pX_Yunnorm logCond
  simp

/-- C1: with `y_cond` supplied, the conditional vector of `harvest` — computed
in log space as `log(binomPmf) + y_cond*log(k*mu) - k*mu` for `k ≥ 1`, with
`-∞` at `k = 0`, shifted by the maximum, exponentiated and divided by the
sum — sums to exactly 1 over `k = 0..n`, and its first element is exactly 0,
for every valid `(n, p, mu)` and every `y_cond > 0`. -/
theorem C1_conditional_sums_to_one_and_starts_at_zero (n : ℕ) (p mu yc : ℝ)
    (hn : 1 ≤ n) (hp0 : 0 < p) (_hp1 : p ≤ 1) (_hmu : 0 < mu) (_hy : 0 < yc) :
    (∑ k in range (n + 1), pX_Y n p mu yc k) = 1 ∧ pX_Y n p mu yc 0 = 0 :=
  ⟨pX_Y_sum_one n p mu yc hn hp0, pX_Y_apply_zero n p mu yc⟩

/-- Witness for C1 at `n = 1`, `p = 1`, `mu = 1`, `y_cond = 1`. -/
theorem C1_witness :
    ((1 : ℕ) ≤ 1 ∧ (0 : ℝ) < 1 ∧ (1 : ℝ) ≤ 1 ∧ (0 : ℝ) < 1 ∧ (0 : ℝ) < 1) ∧
    ((∑ k in range (1 + 1), pX_Y 1 1 1 1 k) = 1 ∧ pX_Y 1 1 1 1 0 = 0) :=
  ⟨⟨le_refl 1, by norm_num, by norm_num, by norm_num, by norm_num⟩,
    C1_conditional_sums_to_one_and_starts_at_zero 1 1 1 1 (le_refl 1)
      (by norm_num) (by norm_num) (by norm_num) (by norm_num)⟩

lemma binomPmf_pos (n k : ℕ) (p : ℝ) (hk : k ≤ n) (hp0 : 0 < p)
    (hp1 : p < 1) : 0 < binomPmf n p k := by
  have hc : 0 < n.choose k := Nat.choose_pos hk
  have h1p : (0 : ℝ) < 1 - p := by linarith
  unfold binomPmf
  positivity

lemma pX_Yunnorm_eq_naive_mul (n : ℕ) (p mu : ℝ) (yc k : ℕ) (hk1 : 1 ≤ k)
    (hkn : k ≤ n) (hp0 : 0 < p) (hp1 : p < 1) (hmu : 0 < mu) :
    pX_Yunnorm n p mu (yc : ℝ) k =
      pX_Ynaive n p mu yc k *
        ((yc.factorial : ℝ) * Real.exp (-(logCondMax n p mu (yc : ℝ)))) := by
  have hb : (0 : ℝ) < binomPmf n p k := binomPmf_pos n k p hkn hp0 hp1
  have hk0 : (0 : ℝ) < (k : ℝ) := by exact_mod_cast hk1
  have hkm : (0 : ℝ) < (k : ℝ) * mu := by positivity
  have hf : (0 : ℝ) < (yc.factorial : ℝ) := by exact_mod_cast yc.factorial_pos
  unfold pX_Yunnorm logCond logW
  rw [if_neg (by omega : ¬ k = 0), if_neg (not_le.2 hb)]
  simp only [WithBot.recBotCoe_coe]
  rw [show Real.log (binomPmf n p k) - (k : ℝ) * mu +
        (yc : ℝ) * Real.log ((k : ℝ) * mu) - logCondMax n p mu (yc : ℝ) =
      Real.log (binomPmf n p k) + (-((k : ℝ) * mu)) +
        (yc : ℝ) * Real.log ((k : ℝ) * mu) +
        (-(logCondMax n p mu (yc : ℝ))) by ring]
  rw [Real.exp_add, Real.exp_add, Real.exp_add, Real.exp_log hb,
    Real.exp_nat_mul, Real.exp_log hkm]
  unfold pX_Ynaive poissonPmf
  field_simp
  ring

lemma pX_Ynaive_apply_zero (n : ℕ) (p mu : ℝ) (yc : ℕ) (hy : 1 ≤ yc) :
    pX_Ynaive n p mu yc 0 = 0 := by
  unfold pX_Ynaive poissonPmf
  rw [Nat.cast_zero, zero_mul, zero_pow (by omega : yc ≠ 0)]
  ring

/-- C2: for small, non-extreme parameters (`n ≤ 20`, `mu ≤ 5`, `0 < p < 1`,
`mu > 0`, integer `y_cond > 0`) the log-space conditional of `harvest` equals,
entry by entry over the support `k = 0..n`, the naive direct-space reference
`binomPmf(k;n,p) * poissonPmf(y_cond; k*mu)` normalized to sum to 1.  In
exact real arithmetic the agreement is exact. -/
theorem C2_logspace_refines_naive (n : ℕ) (p mu : ℝ) (yc k : ℕ)
    (_hn : 1 ≤ n) (_hn20 : n ≤ 20) (hp0 : 0 < p) (hp1 : p < 1)
    (hmu : 0 < mu) (_hmu5 : mu ≤ 5) (hy : 1 ≤ yc) (hk : k ≤ n) :
    pX_Y n p mu (yc : ℝ) k = pX_YnaiveNorm n p mu yc k := by
  set c : ℝ := (yc.factorial : ℝ) * Real.exp (-(logCondMax n p mu (yc : ℝ)))
    with hc_def
  have hf : (0 : ℝ) < (yc.factorial : ℝ) := by exact_mod_cast yc.factorial_pos
  have hc : (0 : ℝ) < c := by rw [hc_def]; positivity
  have key : ∀ j ≤ n, pX_Yunnorm n p mu (yc : ℝ) j = pX_Ynaive n p mu yc j * c := by
    intro j hj
    rcases Nat.eq_zero_or_pos j with hj0 | hj1
    · subst hj0
      rw [pX_Ynaive_apply_zero n p mu yc hy, zero_mul]
      unfold pX_Yunnorm logCond
      simp
    · exact pX_Yunnorm_eq_naive_mul n p mu yc j hj1 hj hp0 hp1 hmu
  unfold pX_Y pX_YnaiveNorm
  rw [key k hk,
    Finset.sum_congr rfl (fun j hj => key j (by
      have := mem_range.1 hj; omega)),
    ← Finset.sum_mul, mul_div_mul_right _ _ hc.ne']

/-- Witness for C2 at `n = 2`, `p = 1/2`, `mu = 1`, `y_cond = 1`, `k = 1`. -/
theorem C2_witness :
    ((1 : ℕ) ≤ 2 ∧ (2 : ℕ) ≤ 20 ∧ (0 : ℝ) < 1 / 2 ∧ (1 / 2 : ℝ) < 1 ∧
      (0 : ℝ) < 1 ∧ (1 : ℝ) ≤ 5 ∧ (1 : ℕ) ≤ 1 ∧ (1 : ℕ) ≤ 2) ∧
    pX_Y 2 (1 / 2) 1 ((1 : ℕ) : ℝ) 1 = pX_YnaiveNorm 2 (1 / 2) 1 1 1 :=
  ⟨⟨by norm_num, by norm_num, by norm_num, by norm_num, by norm_num,
    by norm_num, le_refl 1, by norm_num⟩,
    C2_logspace_refines_naive 2 (1 / 2) 1 1 1 (by norm_num) (by norm_num)
      (by norm_num) (by norm_num) (by norm_num) (by norm_num) (le_refl 1)
      (by norm_num)⟩

lemma binomPmf_nonneg (n k : ℕ) (p : ℝ) (hp0 : 0 ≤ p) (hp1 : p ≤ 1) :
    0 ≤ binomPmf n p k := by
  have h1p : (0 : ℝ) ≤ 1 - p := by linarith
  unfold binomPmf
  positivity

lemma poissonPmf_nonneg (lam : ℝ) (l : ℕ) (h : 0 ≤ lam) :
    0 ≤ poissonPmf lam l := by
  unfold poissonPmf
  positivity

lemma poissonPmf_apply_zero (lam : ℝ) : poissonPmf lam 0 = Real.exp (-lam) := by
  unfold poissonPmf
  simp

/-- C9: calling `harvest` with `y_cond = 0` still forces the first entry of
the conditional vector to 0 (the `k = 0` log term is unconditionally set to
`-∞`) and distributes all mass over `k ≥ 1`, even though the true conditional
probability `P(X = 0 | Y = 0)` — the `k = 0` entry of the normalized
direct-space reference — is strictly positive. -/
theorem C9_ycond_zero_still_kills_first_entry (n : ℕ) (p mu : ℝ)
    (hn : 1 ≤ n) (hp0 : 0 < p) (hp1 : p < 1) (_hmu : 0 < mu) :
    pX_Y n p mu 0 0 = 0 ∧ (∑ k in range (n + 1), pX_Y n p mu 0 k) = 1 ∧
      0 < pX_YnaiveNorm n p mu 0 0 := by
  refine ⟨pX_Y_apply_zero n p mu 0, pX_Y_sum_one n p mu 0 hn hp0, ?_⟩
  have h0 : 0 < pX_Ynaive n p mu 0 0 := by
    unfold pX_Ynaive
    rw [poissonPmf_apply_zero]
    exact mul_pos (binomPmf_pos n 0 p (by omega) hp0 hp1) (Real.exp_pos _)
  have hS : 0 < ∑ j in range (n + 1), pX_Ynaive n p mu 0 j := by
    refine Finset.sum_pos' (fun j _ => ?_) ⟨0, mem_range.2 (by omega), h0⟩
    unfold pX_Ynaive
    rw [poissonPmf_apply_zero]
    exact mul_nonneg (binomPmf_nonneg n j p hp0.le hp1.le) (Real.exp_pos _).le
  exact div_pos h0 hS

/-- Witness for C9 at `n = 1`, `p = 1/2`, `mu = 1`. -/
theorem C9_witness :
    ((1 : ℕ) ≤ 1 ∧ (0 : ℝ) < 1 / 2 ∧ (1 / 2 : ℝ) < 1 ∧ (0 : ℝ) < 1) ∧
    (pX_Y 1 (1 / 2) 1 0 0 = 0 ∧
      (∑ k in range (1 + 1), pX_Y 1 (1 / 2) 1 0 k) = 1 ∧
      0 < pX_YnaiveNorm 1 (1 / 2) 1 0 0) :=
  ⟨⟨le_refl 1, by norm_num, by norm_num, by norm_num⟩,
    C9_ycond_zero_still_kills_first_entry 1 (1 / 2) 1 (le_refl 1)
      (by norm_num) (by norm_num) (by norm_num)⟩

lemma binomPmf_sum (n : ℕ) (p : ℝ) :
    ∑ k in range (n + 1), binomPmf n p k = 1 := by
  have h1 : (p + (1 - p) : ℝ) ^ n = 1 := by
    rw [show p + (1 - p) = (1 : ℝ) by ring, one_pow]
  rw [show (1 : ℝ) = (p + (1 - p)) ^ n from h1.symm, add_pow]
  exact Finset.sum_congr rfl fun k _ => by unfold binomPmf; ring

lemma poissonCdf_le_one (lam : ℝ) (h : 0 ≤ lam) (L : ℕ) :
    ∑ l in range L, poissonPmf lam l ≤ 1 := by
  unfold poissonPmf
  have h1 : ∑ l in range L, Real.exp (-lam) * lam ^ l / (l.factorial : ℝ) =
      Real.exp (-lam) * ∑ l in range L, lam ^ l / (l.factorial : ℝ) := by
    rw [Finset.mul_sum]
    exact Finset.sum_congr rfl fun l _ => by ring
  rw [h1]
  calc Real.exp (-lam) * ∑ l in range L, lam ^ l / (l.factorial : ℝ) ≤
      Real.exp (-lam) * Real.exp lam :=
        mul_le_mul_of_nonneg_left (Real.sum_le_exp_of_nonneg h L)
          (Real.exp_pos _).le
    _ = 1 := by rw [← Real.exp_add]; simp

/-- The probability mass dropped by truncating each Poisson conditional at the
top of the `y` support grid: `∑ₖ binomPmf k · (1 - ∑_{l<Ynum} poissonPmf l)`.
The joint table sums to exactly `1 - tailMass`. -/
noncomputable def tailMass (n : ℕ) (p mu : ℝ) (yc : Option ℝ) : ℝ :=
  ∑ k in range (n + 1),
    binomPmf n p k *
      (1 - ∑ l in range (Ynum n p mu yc), poissonPmf ((k : ℝ) * mu) l)

lemma jointTotal_eq (n : ℕ) (p mu : ℝ) (yc : Option ℝ) :
    ∑ l in range (Ynum n p mu yc), pY n p mu l = 1 - tailMass n p mu yc := by
  have expand : (1 : ℝ) - tailMass n p mu yc =
      ∑ k in range (n + 1),
        binomPmf n p k *
          ∑ l in range (Ynum n p mu yc), poissonPmf ((k : ℝ) * mu) l := by
    unfold tailMass
    nth_rewrite 1 [← binomPmf_sum n p]
    rw [← Finset.sum_sub_distrib]
    exact Finset.sum_congr rfl fun k _ => by ring
  rw [expand]
  unfold pY pXY
  rw [Finset.sum_comm]
  exact Finset.sum_congr rfl fun k _ => (Finset.mul_sum _ _ _).symm

lemma tailMass_nonneg (n : ℕ) (p mu : ℝ) (yc : Option ℝ) (hp0 : 0 ≤ p)
    (hp1 : p ≤ 1) (hmu : 0 ≤ mu) : 0 ≤ tailMass n p mu yc := by
  refine Finset.sum_nonneg fun k _ => mul_nonneg (binomPmf_nonneg n k p hp0 hp1) ?_
  have := poissonCdf_le_one ((k : ℝ) * mu) (by positivity) (Ynum n p mu yc)
  linarith

lemma pY_nonneg (n : ℕ) (p mu : ℝ) (l : ℕ) (hp0 : 0 ≤ p) (hp1 : p ≤ 1)
    (hmu : 0 ≤ mu) : 0 ≤ pY n p mu l :=
  Finset.sum_nonneg fun k _ =>
    mul_nonneg (binomPmf_nonneg n k p hp0 hp1)
      (poissonPmf_nonneg _ _ (by positivity))

/-- C3: the marginal vector of `harvest` is the joint table summed over the
grown-count axis `k = 0..n` for each harvested-count value `l` (the same
element-wise reduction, `pXY.sum(axis=1)`); every element is non-negative;
and the marginal sums to `1 - tailMass`, i.e. to 1 up to exactly the Poisson
mass dropped by the tail cutoff of the support grid. -/
theorem C3_marginal_is_axis_sum (n : ℕ) (p mu : ℝ) (yc : Option ℝ)
    (hp0 : 0 ≤ p) (hp1 : p ≤ 1) (hmu : 0 ≤ mu) :
    (∀ l, pY n p mu l = ∑ k in range (n + 1), pXY n p mu k l) ∧
    (∀ l, 0 ≤ pY n p mu l) ∧
    (∑ l in range (Ynum n p mu yc), pY n p mu l) = 1 - tailMass n p mu yc ∧
    0 ≤ tailMass n p mu yc :=
  ⟨fun _ => rfl, fun l => pY_nonneg n p mu l hp0 hp1 hmu,
    jointTotal_eq n p mu yc, tailMass_nonneg n p mu yc hp0 hp1 hmu⟩

/-- Witness for C3 at `n = 1`, `p = 1/2`, `mu = 1`, no conditioning. -/
theorem C3_witness :
    ((0 : ℝ) ≤ 1 / 2 ∧ (1 / 2 : ℝ) ≤ 1 ∧ (0 : ℝ) ≤ 1) ∧
    ((∀ l, pY 1 (1 / 2) 1 l = ∑ k in range (1 + 1), pXY 1 (1 / 2) 1 k l) ∧
      (∀ l, 0 ≤ pY 1 (1 / 2) 1 l) ∧
      (∑ l in range (Ynum 1 (1 / 2) 1 none), pY 1 (1 / 2) 1 l) =
        1 - tailMass 1 (1 / 2) 1 none ∧
      0 ≤ tailMass 1 (1 / 2) 1 none) :=
  ⟨⟨by norm_num, by norm_num, by norm_num⟩,
    C3_marginal_is_axis_sum 1 (1 / 2) 1 none (by norm_num) (by norm_num)
      (by norm_num)⟩

/-- C4: every joint-table entry is `binomPmf(k;n,p) * poissonPmf(l;k*mu)`;
the `Y` support bound is `n*p*mu + 4*sqrt(n*p*mu*(1+mu*(1-p)))`, extended to
`y_cond` when the latter exceeds it; and the joint table summed over its
entire support equals `1 - tailMass`, i.e. 1 up to exactly the truncated
Poisson tail mass. -/
theorem C4_joint_table (n : ℕ) (p mu : ℝ) (yc : Option ℝ) (_hn : 1 ≤ n)
    (hp0 : 0 ≤ p) (hp1 : p ≤ 1) (hmu : 0 < mu) :
    (∀ k l, pXY n p mu k l = binomPmf n p k * poissonPmf ((k : ℝ) * mu) l) ∧
    (∀ y, Ymax n p mu (some y) = max (YmaxBase n p mu) y) ∧
    (∀ y, YmaxBase n p mu ≤ Ymax n p mu (some y) ∧ y ≤ Ymax n p mu (some y)) ∧
    YmaxBase n p mu =
      n * p * mu + 4 * Real.sqrt ((n * p * mu) * (1 + mu * (1 - p))) ∧
    (∑ l in range (Ynum n p mu yc), ∑ k in range (n + 1), pXY n p mu k l) =
      1 - tailMass n p mu yc ∧
    0 ≤ tailMass n p mu yc :=
  ⟨fun _ _ => rfl, fun _ => rfl,
    fun _ => ⟨le_max_left _ _, le_max_right _ _⟩, rfl,
    jointTotal_eq n p mu yc, tailMass_nonneg n p mu yc hp0 hp1 hmu.le⟩

/-- Witness for C4 at `n = 1`, `p = 1/2`, `mu = 1`, `y_cond = 3`. -/
theorem C4_witness :
    ((1 : ℕ) ≤ 1 ∧ (0 : ℝ) ≤ 1 / 2 ∧ (1 / 2 : ℝ) ≤ 1 ∧ (0 : ℝ) < 1) ∧
    ((∀ k l, pXY 1 (1 / 2) 1 k l =
        binomPmf 1 (1 / 2) k * poissonPmf ((k : ℝ) * 1) l) ∧
      (∀ y, Ymax 1 (1 / 2) 1 (some y) = max (YmaxBase 1 (1 / 2) 1) y) ∧
      (∀ y, YmaxBase 1 (1 / 2) 1 ≤ Ymax 1 (1 / 2) 1 (some y) ∧
        y ≤ Ymax 1 (1 / 2) 1 (some y)) ∧
      YmaxBase 1 (1 / 2) 1 =
        ((1 : ℕ) : ℝ) * (1 / 2) * 1 +
          4 * Real.sqrt ((((1 : ℕ) : ℝ) * (1 / 2) * 1) *
            (1 + 1 * (1 - 1 / 2))) ∧
      (∑ l in range (Ynum 1 (1 / 2) 1 (some 3)),
          ∑ k in range (1 + 1), pXY 1 (1 / 2) 1 k l) =
        1 - tailMass 1 (1 / 2) 1 (some 3) ∧
      0 ≤ tailMass 1 (1 / 2) 1 (some 3)) :=
  ⟨⟨le_refl 1, by norm_num, by norm_num, by norm_num⟩,
    C4_joint_table 1 (1 / 2) 1 (some 3) (le_refl 1) (by norm_num)
      (by norm_num) (by norm_num)⟩

/-- The figure returned by `harvest`: its panels carry the plotted numeric
data — the joint table in the 3-D stem plot and the heat map, the marginal in
the filled curve, the conditional bar chart and the red conditioning line when
`y_cond` is supplied — together with the support sizes of the plot grids. -/
structure HarvestFig where
  stem3d : ℕ → ℕ → ℝ
  heat : ℕ → ℕ → ℝ
  marg : ℕ → ℝ
  cond : Option (ℕ → ℝ)
  condLine : Option ℝ
  klen : ℕ
  llen : ℕ

/-- The `harvest` function: computes the joint table, the marginal and (when
`y_cond` is supplied) the conditional vector, and returns the rendered figure
carrying them. -/
noncomputable def harvest (n : ℕ) (p mu : ℝ) (y_cond : Option ℝ) : HarvestFig where
  stem3d := pXY n p mu
  heat := pXY n p mu
  marg := pY n p mu
  cond := y_cond.map fun yc => pX_Y n p mu yc
  condLine := y_cond
  klen := n + 1
  llen := Ynum n p mu y_cond

/-- C8: for every input, the output of `harvest` delivers the joint table (in
the stem and heat-map panels), the marginal vector, and — exactly when
`y_cond` is supplied — the conditional vector, each as a numeric sequence over
its respective support (`k = 0..n`, `l = 0..Ynum-1`), as the plotted data of
the rendered multi-panel figure that the function returns. -/
theorem C8_harvest_outputs (n : ℕ) (p mu yc : ℝ) :
    (harvest n p mu (some yc)).stem3d = pXY n p mu ∧
    (harvest n p mu (some yc)).heat = pXY n p mu ∧
    (harvest n p mu (some yc)).marg = pY n p mu ∧
    (harvest n p mu (some yc)).cond = some (pX_Y n p mu yc) ∧
    (harvest n p mu (some yc)).condLine = some yc ∧
    (harvest n p mu none).cond = none ∧
    (∀ l, (harvest n p mu (some yc)).marg l =
      ∑ k in range (n + 1), (harvest n p mu (some yc)).heat k l) ∧
    (harvest n p mu (some yc)).klen = n + 1 ∧
    (harvest n p mu (some yc)).llen = Ynum n p mu (some yc) :=
  ⟨rfl, rfl, rfl, rfl, rfl, rfl, fun _ => rfl, rfl, rfl⟩

end Harvest

/-! ## The standard normal distribution

`scipy.stats.norm.cdf` and `scipy.stats.norm.ppf` are embedded through the
Gaussian density of Mathlib: the cdf is the integral of the density over
`Iic x`, and the quantile function is a choice of preimage under the cdf
(scipy guarantees `cdf (ppf q) = q` on `(0,1)`, which is proved below from
continuity and the limits of the cdf). -/

/-- The standard normal density. -/
noncomputable def stdNormPDF (x : ℝ) : ℝ := ProbabilityTheory.gaussianPDFReal 0 1 x

/-- `scipy.stats.norm.cdf` for the standard normal. -/
noncomputable def stdNormCDF (x : ℝ) : ℝ := ∫ t in Set.Iic x, stdNormPDF t

open Classical in
/-- `scipy.stats.norm.ppf` for the standard normal: a preimage of `q` under
the cdf when one exists (which holds for every `q ∈ (0,1)`). -/
noncomputable def stdNormQuantile (q : ℝ) : ℝ :=
  if h : ∃ x, stdNormCDF x = q then h.choose else 0

lemma stdNormPDF_integrable : MeasureTheory.Integrable stdNormPDF :=
  ProbabilityTheory.integrable_gaussianPDFReal 0 1

lemma stdNormPDF_integral_one : ∫ x, stdNormPDF x = 1 :=
  ProbabilityTheory.integral_gaussianPDFReal_eq_one 0 one_ne_zero

lemma stdNormCDF_eq_primitive (b : ℝ) :
    stdNormCDF b = (∫ x in (0 : ℝ)..b, stdNormPDF x) + stdNormCDF 0 := by
  unfold stdNormCDF
  rw [← intervalIntegral.integral_Iic_sub_Iic stdNormPDF_integrable.integrableOn
    stdNormPDF_integrable.integrableOn]
  ring

lemma stdNormCDF_continuous : Continuous stdNormCDF := by
  have h : Continuous fun b => (∫ x in (0 : ℝ)..b, stdNormPDF x) + stdNormCDF 0 :=
    (stdNormPDF_integrable.continuous_primitive 0).add continuous_const
  exact (funext stdNormCDF_eq_primitive : stdNormCDF = _) ▸ h

lemma iUnion_Iic_nat : ⋃ n : ℕ, Set.Iic ((n : ℝ)) = Set.univ := by
  ext x
  simp only [Set.mem_iUnion, Set.mem_Iic, Set.mem_univ, iff_true]
  exact exists_nat_ge x

lemma iUnion_Ioi_neg_nat : ⋃ n : ℕ, Set.Ioi (-(n : ℝ)) = Set.univ := by
  ext x
  simp only [Set.mem_iUnion, Set.mem_Ioi, Set.mem_univ, iff_true]
  obtain ⟨n, hn⟩ := exists_nat_gt (-x)
  exact ⟨n, by linarith⟩

lemma tendsto_stdNormCDF_nat :
    Filter.Tendsto (fun n : ℕ => stdNormCDF n) Filter.atTop (nhds 1) := by
  have h := MeasureTheory.tendsto_setIntegral_of_monotone
    (s := fun n : ℕ => Set.Iic ((n : ℝ))) (f := stdNormPDF)
    (fun _ => measurableSet_Iic)
    (fun a b hab => Set.Iic_subset_Iic.2 (Nat.cast_le.2 hab))
    (by rw [iUnion_Iic_nat]; exact stdNormPDF_integrable.integrableOn)
  rw [iUnion_Iic_nat, MeasureTheory.setIntegral_univ, stdNormPDF_integral_one] at h
  exact h

lemma stdNormCDF_add_Ioi (x : ℝ) :
    stdNormCDF x + ∫ t in Set.Ioi x, stdNormPDF t = 1 := by
  unfold stdNormCDF
  rw [intervalIntegral.integral_Iic_add_Ioi stdNormPDF_integrable.integrableOn
    stdNormPDF_integrable.integrableOn]
  exact stdNormPDF_integral_one

lemma tendsto_stdNormCDF_neg_nat :
    Filter.Tendsto (fun n : ℕ => stdNormCDF (-(n : ℝ))) Filter.atTop (nhds 0) := by
  have hI : Filter.Tendsto (fun n : ℕ => ∫ t in Set.Ioi (-(n : ℝ)), stdNormPDF t)
      Filter.atTop (nhds 1) := by
    have h := MeasureTheory.tendsto_setIntegral_of_monotone
      (s := fun n : ℕ => Set.Ioi (-(n : ℝ))) (f := stdNormPDF)
      (fun _ => measurableSet_Ioi)
      (fun a b hab => Set.Ioi_subset_Ioi (neg_le_neg (Nat.cast_le.2 hab)))
      (by rw [iUnion_Ioi_neg_nat]; exact stdNormPDF_integrable.integrableOn)
    rw [iUnion_Ioi_neg_nat, MeasureTheory.setIntegral_univ,
      stdNormPDF_integral_one] at h
    exact h
  have heq : (fun n : ℕ => stdNormCDF (-(n : ℝ))) =
      fun n : ℕ => 1 - ∫ t in Set.Ioi (-(n : ℝ)), stdNormPDF t := by
    funext n
    linarith [stdNormCDF_add_Ioi (-(n : ℝ))]
  rw [heq]
  simpa using Filter.Tendsto.sub (tendsto_const_nhds (x := (1 : ℝ))) hI

lemma stdNormCDF_surj (q : ℝ) (hq0 : 0 < q) (hq1 : q < 1) :
    ∃ x, stdNormCDF x = q := by
  obtain ⟨b, hb⟩ := ((tendsto_order.mp tendsto_stdNormCDF_nat).1 q hq1).exists
  obtain ⟨a, ha⟩ :=
    ((tendsto_order.mp tendsto_stdNormCDF_neg_nat).2 q hq0).exists
  exact intermediate_value_univ (-(a : ℝ)) (b : ℝ) stdNormCDF_continuous
    ⟨ha.le, hb.le⟩

lemma stdNormCDF_quantile (q : ℝ) (hq0 : 0 < q) (hq1 : q < 1) :
    stdNormCDF (stdNormQuantile q) = q := by
  unfold stdNormQuantile
  rw [dif_pos (stdNormCDF_surj q hq0 hq1)]
  exact (stdNormCDF_surj q hq0 hq1).choose_spec

namespace Styrkefkn

/-- The IEEE boundary values used by the source: a critical bound is either
`-np.Inf`, a finite real, or `np.Inf`. -/
inductive ExtR where
  | negInf : ExtR
  | finite : ℝ → ExtR
  | posInf : ExtR

/-- `scipy.stats.norm.ppf(q, m, s) = m + s * ppf(q)`. -/
noncomputable def normPpf (q m s : ℝ) : ℝ := m + s * stdNormQuantile q

/-- `scipy.stats.norm.cdf(k, m, s)` for a possibly infinite argument `k`:
`cdf(-inf) = 0`, `cdf(inf) = 1`, and `Φ((k-m)/s)` for finite `k`. -/
noncomputable def normCdfE : ExtR → ℝ → ℝ → ℝ
  | ExtR.negInf, _, _ => 0
  | ExtR.posInf, _, _ => 1
  | ExtR.finite k, m, s => stdNormCDF ((k - m) / s)

/-- `s = sigma/np.sqrt(n)`: the standard deviation of the mean estimate. -/
noncomputable def stdErr (sigma : ℝ) (n : ℕ) : ℝ := sigma / Real.sqrt n

/-- `h = 1 - (stats.norm.cdf(k2, x, s) - stats.norm.cdf(k1, x, s))`:
the power function. -/
noncomputable def powerH (k1 k2 : ExtR) (s x : ℝ) : ℝ :=
  1 - (normCdfE k2 x s - normCdfE k1 x s)

/-- The figure returned by `styrkefkn`: critical bounds, plotting range for
`x`, the power curve, and the optional power value at `mu_sant`. -/
structure PowerFig where
  k1 : ExtR
  k2 : ExtR
  xlo : ℝ
  xhi : ℝ
  h : ℝ → ℝ
  f : Option ℝ

/-- The `ValueError` message of the `case _` branch. -/
def errMsgStyrke (riktning : String) : String :=
  "The \x27riktning\x27 parameters must be one of \x27!=\x27, \x27<\x27 or \x27>\x27; not "
    ++ riktning

/-- The `styrkefkn` function: direction-dependent critical bounds and
plotting range, power curve `h`, optional power at `mu_sant`, and the
`ValueError` on an unrecognized direction string. -/
noncomputable def styrkefkn (mu0 sigma : ℝ) (n : ℕ) (alpha : ℝ)
    (riktning : String) (mu_sant : Option ℝ) : Except String PowerFig :=
  if riktning = "<" then
    Except.ok ⟨ExtR.finite (normPpf alpha mu0 (stdErr sigma n)), ExtR.posInf,
      normPpf alpha mu0 (stdErr sigma n) - 4 * stdErr sigma n,
      mu0 + 3 * stdErr sigma n,
      powerH (ExtR.finite (normPpf alpha mu0 (stdErr sigma n))) ExtR.posInf
        (stdErr sigma n),
      mu_sant.map
        (powerH (ExtR.finite (normPpf alpha mu0 (stdErr sigma n))) ExtR.posInf
          (stdErr sigma n))⟩
  else if riktning = ">" then
    Except.ok ⟨ExtR.negInf, ExtR.finite (normPpf (1 - alpha) mu0 (stdErr sigma n)),
      mu0 - 3 * stdErr sigma n,
      normPpf (1 - alpha) mu0 (stdErr sigma n) + 4 * stdErr sigma n,
      powerH ExtR.negInf
        (ExtR.finite (normPpf (1 - alpha) mu0 (stdErr sigma n))) (stdErr sigma n),
      mu_sant.map
        (powerH ExtR.negInf
          (ExtR.finite (normPpf (1 - alpha) mu0 (stdErr sigma n)))
          (stdErr sigma n))⟩
  else if riktning = "!=" then
    Except.ok ⟨ExtR.finite (normPpf (alpha / 2) mu0 (stdErr sigma n)),
      ExtR.finite (normPpf (1 - alpha / 2) mu0 (stdErr sigma n)),
      normPpf (alpha / 2) mu0 (stdErr sigma n) - 4 * stdErr sigma n,
      normPpf (1 - alpha / 2) mu0 (stdErr sigma n) + 4 * stdErr sigma n,
      powerH (ExtR.finite (normPpf (alpha / 2) mu0 (stdErr sigma n)))
        (ExtR.finite (normPpf (1 - alpha / 2) mu0 (stdErr sigma n)))
        (stdErr sigma n),
      mu_sant.map
        (powerH (ExtR.finite (normPpf (alpha / 2) mu0 (stdErr sigma n)))
          (ExtR.finite (normPpf (1 - alpha / 2) mu0 (stdErr sigma n)))
          (stdErr sigma n))⟩
  else Except.error (errMsgStyrke riktning)

/-- The power curve of the returned figure, evaluated at the null mean. -/
noncomputable def powerAtNull (mu0 sigma : ℝ) (n : ℕ) (alpha : ℝ)
    (riktning : String) (mu_sant : Option ℝ) : Option ℝ :=
  (styrkefkn mu0 sigma n alpha riktning mu_sant).toOption.map fun fig => fig.h mu0

lemma normCdfE_negInf (m s : ℝ) : normCdfE ExtR.negInf m s = 0 := rfl

lemma normCdfE_posInf (m s : ℝ) : normCdfE ExtR.posInf m s = 1 := rfl

lemma normCdfE_finite (k m s : ℝ) :
    normCdfE (ExtR.finite k) m s = stdNormCDF ((k - m) / s) := rfl

lemma stdErr_pos (sigma : ℝ) (n : ℕ) (hs : 0 < sigma) (hn : 1 ≤ n) :
    0 < stdErr sigma n := by
  have h0 : (0 : ℝ) < (n : ℝ) := by exact_mod_cast hn
  exact div_pos hs (Real.sqrt_pos.2 h0)

/-- C5: for each accepted direction and all `mu0`, `sigma > 0`, `n ≥ 1`,
`alpha ∈ (0,1)`, the power function `h(x) = 1 - [Φ((k2-x)/s) - Φ((k1-x)/s)]`
computed by `styrkefkn` with the direction-dependent critical bounds
evaluates at `x = mu0` to exactly `alpha`. -/
theorem C5_power_at_null_is_alpha (mu0 sigma : ℝ) (n : ℕ) (alpha : ℝ)
    (riktning : String) (mu_sant : Option ℝ) (hs : 0 < sigma) (hn : 1 ≤ n)
    (ha0 : 0 < alpha) (ha1 : alpha < 1)
    (hr : riktning = "<" ∨ riktning = ">" ∨ riktning = "!=") :
    powerAtNull mu0 sigma n alpha riktning mu_sant = some alpha := by
  have hsp : 0 < stdErr sigma n := stdErr_pos sigma n hs hn
  rcases hr with rfl | rfl | rfl
  · unfold powerAtNull styrkefkn
    rw [if_pos rfl]
    simp only [Except.toOption, Option.map_some', Option.some.injEq]
    show powerH (ExtR.finite (normPpf alpha mu0 (stdErr sigma n))) ExtR.posInf
      (stdErr sigma n) mu0 = alpha
    unfold powerH
    rw [normCdfE_posInf, normCdfE_finite]
    unfold normPpf
    rw [show (mu0 + stdErr sigma n * stdNormQuantile alpha - mu0) / stdErr sigma n
        = stdNormQuantile alpha by field_simp]
    rw [stdNormCDF_quantile alpha ha0 ha1]
    norm_num
  · unfold powerAtNull styrkefkn
    rw [if_neg (by decide), if_pos rfl]
    simp only [Except.toOption, Option.map_some', Option.some.injEq]
    show powerH ExtR.negInf
      (ExtR.finite (normPpf (1 - alpha) mu0 (stdErr sigma n)))
      (stdErr sigma n) mu0 = alpha
    unfold powerH
    rw [normCdfE_negInf, normCdfE_finite]
    unfold normPpf
    rw [show (mu0 + stdErr sigma n * stdNormQuantile (1 - alpha) - mu0) /
          stdErr sigma n = stdNormQuantile (1 - alpha) by field_simp]
    rw [stdNormCDF_quantile (1 - alpha) (by linarith) (by linarith)]
    norm_num
  · unfold powerAtNull styrkefkn
    rw [if_neg (by decide), if_neg (by decide), if_pos rfl]
    simp only [Except.toOption, Option.map_some', Option.some.injEq]
    show powerH (ExtR.finite (normPpf (alpha / 2) mu0 (stdErr sigma n)))
      (ExtR.finite (normPpf (1 - alpha / 2) mu0 (stdErr sigma n)))
      (stdErr sigma n) mu0 = alpha
    unfold powerH
    rw [normCdfE_finite, normCdfE_finite]
    unfold normPpf
    rw [show (mu0 + stdErr sigma n * stdNormQuantile (alpha / 2) - mu0) /
          stdErr sigma n = stdNormQuantile (alpha / 2) by field_simp]
    rw [show (mu0 + stdErr sigma n * stdNormQuantile (1 - alpha / 2) - mu0) /
          stdErr sigma n = stdNormQuantile (1 - alpha / 2) by field_simp]
    rw [stdNormCDF_quantile (alpha / 2) (by linarith) (by linarith),
      stdNormCDF_quantile (1 - alpha / 2) (by linarith) (by linarith)]
    ring

/-- Witness for C5 at `mu0 = 0`, `sigma = 1`, `n = 1`, `alpha = 1/2`,
two-sided direction. -/
theorem C5_witness :
    ((0 : ℝ) < 1 ∧ (1 : ℕ) ≤ 1 ∧ (0 : ℝ) < 1 / 2 ∧ (1 / 2 : ℝ) < 1 ∧
      (("!=" : String) = "<" ∨ ("!=" : String) = ">" ∨
        ("!=" : String) = "!=")) ∧
    powerAtNull 0 1 1 (1 / 2) "!=" none = some (1 / 2) :=
  ⟨⟨by norm_num, le_refl 1, by norm_num, by norm_num, Or.inr (Or.inr rfl)⟩,
    C5_power_at_null_is_alpha 0 1 1 (1 / 2) "!=" none (by norm_num) (le_refl 1)
      (by norm_num) (by norm_num) (Or.inr (Or.inr rfl))⟩

end Styrkefkn

namespace Skattningar

/-- `n_sim = 1000`: the fixed number of Monte-Carlo repetitions. -/
def nSim : ℕ := 1000

/-- `x.mean(axis=1)` for one repetition: the sample mean of `m` observations. -/
noncomputable def sampleMean (m : ℕ) (xs : ℕ → ℝ) : ℝ :=
  (∑ i in range m, xs i) / m

/-- `np.var(x, axis=1)` for one repetition, with numpy's default `ddof = 0`:
the mean of squared deviations from the sample mean, dividing by `m`. -/
noncomputable def npVar (m : ℕ) (xs : ℕ → ℝ) : ℝ :=
  (∑ i in range m, (xs i - sampleMean m xs) ^ 2) / m

/-- `mu_est`: per-repetition sample means for the two sample sizes; `data j r`
is the random sample of repetition `r` at sample size `n j`. -/
noncomputable def mu_est (n : Fin 2 → ℕ) (data : Fin 2 → ℕ → ℕ → ℝ)
    (j : Fin 2) (r : ℕ) : ℝ :=
  sampleMean (n j) (data j r)

/-- `s2_est = np.column_stack((np.var(x,axis=1), np.var(y,axis=1)))`:
per-repetition variance estimates. -/
noncomputable def s2_est (n : Fin 2 → ℕ) (data : Fin 2 → ℕ → ℕ → ℝ)
    (j : Fin 2) (r : ℕ) : ℝ :=
  npVar (n j) (data j r)

/-- `w = stats.norm.ppf(0.975)*sigma/np.sqrt(n)`: the half-width of the
confidence interval, built from the known population `sigma`. -/
noncomputable def ciWidth (sigma : ℝ) (n : Fin 2 → ℕ) (j : Fin 2) : ℝ :=
  stdNormQuantile 0.975 * sigma / Real.sqrt (n j)

/-- Lower bound `mu_est - w` of the per-repetition confidence interval. -/
noncomputable def ciLo (sigma : ℝ) (n : Fin 2 → ℕ) (data : Fin 2 → ℕ → ℕ → ℝ)
    (j : Fin 2) (r : ℕ) : ℝ :=
  mu_est n data j r - ciWidth sigma n j

/-- Upper bound `mu_est + w` of the per-repetition confidence interval. -/
noncomputable def ciHi (sigma : ℝ) (n : Fin 2 → ℕ) (data : Fin 2 → ℕ → ℕ → ℝ)
    (j : Fin 2) (r : ℕ) : ℝ :=
  mu_est n data j r + ciWidth sigma n j

/-- `np.sign(CI-mu).prod(axis=1) == 1`: the indicator that an interval misses
the true mean (the two shifted bounds have the same strict sign). -/
def missCI (mu sigma : ℝ) (n : Fin 2 → ℕ) (data : Fin 2 → ℕ → ℕ → ℝ)
    (j : Fin 2) (r : ℕ) : Prop :=
  Real.sign (ciLo sigma n data j r - mu) * Real.sign (ciHi sigma n data j r - mu) = 1

open Classical in
/-- `p = [I_x.mean(), I_y.mean()]`: the empirical miss rate, the mean of the
boolean miss indicators over the 1000 repetitions. -/
noncomputable def missRate (mu sigma : ℝ) (n : Fin 2 → ℕ)
    (data : Fin 2 → ℕ → ℕ → ℝ) (j : Fin 2) : ℝ :=
  (∑ r in range nSim, if missCI mu sigma n data j r then (1 : ℝ) else 0) / nSim

/-- The figure returned by `skattningar`: one variant per mode, carrying the
plotted per-repetition estimates, or the interval bounds and miss rates. -/
inductive SkatFig where
  | muskattFig : (Fin 2 → ℕ → ℝ) → SkatFig
  | sigmaskattFig : (Fin 2 → ℕ → ℝ) → SkatFig
  | konfintFig : (Fin 2 → ℕ → ℝ) → (Fin 2 → ℕ → ℝ) → (Fin 2 → ℝ) → SkatFig

/-- The `ValueError` message of the `else` branch. -/
def errMsgSkat (alternativ : String) : String :=
  "The \x27alternativ\x27 parameters must be one of \x27muskatt\x27, \x27sigmaskatt\x27 or \x27konfint\x27; not "
    ++ alternativ

/-- The `skattningar` function: dispatch on the `alternativ` mode string, with
the random draws passed in as `data`, and the `ValueError` on an unrecognized
mode. -/
noncomputable def skattningar (mu sigma : ℝ) (n : Fin 2 → ℕ)
    (alternativ : String) (data : Fin 2 → ℕ → ℕ → ℝ) : Except String SkatFig :=
  if alternativ = "muskatt" then Except.ok (SkatFig.muskattFig (mu_est n data))
  else if alternativ = "sigmaskatt" then
    Except.ok (SkatFig.sigmaskattFig (s2_est n data))
  else if alternativ = "konfint" then
    Except.ok (SkatFig.konfintFig (ciLo sigma n data) (ciHi sigma n data)
      (missRate mu sigma n data))
  else Except.error (errMsgSkat alternativ)

lemma sign_mul_sign_eq_one_iff (a b : ℝ) :
    Real.sign a * Real.sign b = 1 ↔ (0 < a ∧ 0 < b) ∨ (a < 0 ∧ b < 0) := by
  rcases lt_trichotomy a 0 with ha | rfl | ha
  · rcases lt_trichotomy b 0 with hb | rfl | hb
    · rw [Real.sign_of_neg ha, Real.sign_of_neg hb]
      norm_num [ha, hb]
    · rw [Real.sign_of_neg ha, Real.sign_zero]
      norm_num
    · rw [Real.sign_of_neg ha, Real.sign_of_pos hb]
      norm_num [ha.asymm, hb.asymm]
  · rw [Real.sign_zero]
    norm_num
  · rcases lt_trichotomy b 0 with hb | rfl | hb
    · rw [Real.sign_of_pos ha, Real.sign_of_neg hb]
      norm_num [ha.asymm, hb.asymm]
    · rw [Real.sign_of_pos ha, Real.sign_zero]
      norm_num
    · rw [Real.sign_of_pos ha, Real.sign_of_pos hb]
      norm_num [ha, hb]

/-- C6: in confidence-interval mode, each of the 1000 intervals at each
sample size is `sampleMean ± z_(1-0.05/2)·sigma/√(n j)` built from the known
population `sigma`; an interval is classified as missing exactly when the
true mean lies strictly outside it (both bounds strictly on the same side of
`mu`), and the reported value per sample size is the fraction of the 1000
intervals so classified. -/
theorem C6_confidence_interval_miss_rate (mu sigma : ℝ) (n : Fin 2 → ℕ)
    (data : Fin 2 → ℕ → ℕ → ℝ) :
    skattningar mu sigma n "konfint" data =
      Except.ok (SkatFig.konfintFig (ciLo sigma n data) (ciHi sigma n data)
        (missRate mu sigma n data)) ∧
    (∀ j r, ciLo sigma n data j r =
      sampleMean (n j) (data j r) -
        stdNormQuantile (1 - 0.05 / 2) * sigma / Real.sqrt (n j)) ∧
    (∀ j r, ciHi sigma n data j r =
      sampleMean (n j) (data j r) +
        stdNormQuantile (1 - 0.05 / 2) * sigma / Real.sqrt (n j)) ∧
    (∀ j r, missCI mu sigma n data j r ↔
      ((mu < ciLo sigma n data j r ∧ mu < ciHi sigma n data j r) ∨
        (ciLo sigma n data j r < mu ∧ ciHi sigma n data j r < mu))) ∧
    (∀ j, missRate mu sigma n data j =
      ((@Finset.filter ℕ (fun r => missCI mu sigma n data j r)
        (fun _ => Classical.propDecidable _) (range 1000)).card : ℝ) / 1000) := by
  have hq : (1 - 0.05 / 2 : ℝ) = 0.975 := by norm_num
  refine ⟨?_, ?_, ?_, ?_, ?_⟩
  · unfold skattningar
    rw [if_neg (by decide), if_neg (by decide), if_pos rfl]
  · intro j r
    unfold ciLo ciWidth mu_est
    rw [hq]
  · intro j r
    unfold ciHi ciWidth mu_est
    rw [hq]
  · intro j r
    unfold missCI
    rw [sign_mul_sign_eq_one_iff]
    simp only [sub_pos, sub_neg]
  · intro j
    unfold missRate nSim
    rw [Finset.sum_boole]
    norm_num

/-- C10: in variance-estimate mode, every plotted per-repetition variance
estimate is the biased maximum-likelihood estimator
`(1/n)·∑(x_i - sampleMean)²` (numpy's `np.var` with default `ddof = 0`),
and differs from the unbiased sample variance (division by `n - 1`) whenever
`n ≥ 2` and the squared deviations do not vanish. -/
theorem C10_variance_estimate_is_biased_mle (mu sigma : ℝ) (n : Fin 2 → ℕ)
    (data : Fin 2 → ℕ → ℕ → ℝ) (j : Fin 2) (r : ℕ) (h2 : 2 ≤ n j)
    (hS : (∑ i in range (n j), (data j r i - sampleMean (n j) (data j r)) ^ 2) ≠ 0) :
    skattningar mu sigma n "sigmaskatt" data =
      Except.ok (SkatFig.sigmaskattFig (s2_est n data)) ∧
    s2_est n data j r =
      (∑ i in range (n j), (data j r i - sampleMean (n j) (data j r)) ^ 2) /
        (n j : ℝ) ∧
    s2_est n data j r ≠
      (∑ i in range (n j), (data j r i - sampleMean (n j) (data j r)) ^ 2) /
        ((n j : ℝ) - 1) := by
  have hn0 : (0 : ℝ) < (n j : ℝ) := by
    have : (0 : ℕ) < n j := by omega
    exact_mod_cast this
  have hn2 : (2 : ℝ) ≤ (n j : ℝ) := by exact_mod_cast h2
  have hn1 : (0 : ℝ) < (n j : ℝ) - 1 := by linarith
  refine ⟨?_, rfl, ?_⟩
  · unfold skattningar
    rw [if_neg (by decide), if_pos rfl]
  · intro heq
    have heq' : (∑ i in range (n j), (data j r i - sampleMean (n j) (data j r)) ^ 2) /
        (n j : ℝ) =
        (∑ i in range (n j), (data j r i - sampleMean (n j) (data j r)) ^ 2) /
        ((n j : ℝ) - 1) := heq
    rw [div_eq_div_iff hn0.ne' hn1.ne'] at heq'
    apply hS
    set S := ∑ i in range (n j), (data j r i - sampleMean (n j) (data j r)) ^ 2
    nlinarith [heq']

/-- Concrete sample-size pair used by the C10 witness. -/
def wN : Fin 2 → ℕ := fun _ => 2

/-- Concrete sampled data used by the C10 witness: observation `i` is `i`. -/
noncomputable def wData : Fin 2 → ℕ → ℕ → ℝ := fun _ _ i => (i : ℝ)

/-- Witness for C10 at `n = (2,2)`, sample data `i ↦ i`, `j = 0`, `r = 0`. -/
theorem C10_witness :
    ((2 : ℕ) ≤ wN 0 ∧
      (∑ i in range (wN 0), (wData 0 0 i - sampleMean (wN 0) (wData 0 0)) ^ 2) ≠ 0) ∧
    (skattningar 0 1 wN "sigmaskatt" wData =
      Except.ok (SkatFig.sigmaskattFig (s2_est wN wData)) ∧
    s2_est wN wData 0 0 =
      (∑ i in range (wN 0), (wData 0 0 i - sampleMean (wN 0) (wData 0 0)) ^ 2) /
        (wN 0 : ℝ) ∧
    s2_est wN wData 0 0 ≠
      (∑ i in range (wN 0), (wData 0 0 i - sampleMean (wN 0) (wData 0 0)) ^ 2) /
        ((wN 0 : ℝ) - 1)) :=
  ⟨⟨by norm_num [wN],
    by norm_num [wN, wData, sampleMean, Finset.sum_range_succ]⟩,
    C10_variance_estimate_is_biased_mle 0 1 wN wData 0 0 (by norm_num [wN])
      (by norm_num [wN, wData, sampleMean, Finset.sum_range_succ])⟩

end Skattningar

/-- C7, counterexample: the claim states that every mode string outside
`{"mu-estimate","variance-estimate","confidence-interval"}` is rejected, but
the mode `"muskatt"` — outside that set — is accepted by the code and
produces a figure. -/
theorem C7_counterexample :
    Skattningar.skattningar 0 1 (fun _ => 10) "muskatt" (fun _ _ _ => 0) =
      Except.ok (Skattningar.SkatFig.muskattFig
        (Skattningar.mu_est (fun _ => 10) (fun _ _ _ => 0))) ∧
    "muskatt" ∉
      (["mu-estimate", "variance-estimate", "confidence-interval"] :
        List String) := by
  constructor
  · unfold Skattningar.skattningar
    rw [if_pos rfl]
  · decide

/-- C7, amended: the Monte-Carlo simulation function rejects every mode
string outside `{"muskatt","sigmaskatt","konfint"}` and the power-function
visualization rejects every direction string outside `{"!=","<",">"}`; in
both cases the result is the validation error whose message names the
received value and the accepted set, and no figure is produced on the error
path (the error carries no figure value). -/
theorem C7_amended_invalid_enum_rejected (mu sigma : ℝ) (n : Fin 2 → ℕ)
    (alternativ : String) (data : Fin 2 → ℕ → ℕ → ℝ) (mu0 sigma2 : ℝ) (m : ℕ)
    (alpha : ℝ) (riktning : String) (mu_sant : Option ℝ)
    (hA : alternativ ∉ (["muskatt", "sigmaskatt", "konfint"] : List String))
    (hR : riktning ∉ (["!=", "<", ">"] : List String)) :
    Skattningar.skattningar mu sigma n alternativ data =
      Except.error (Skattningar.errMsgSkat alternativ) ∧
    Styrkefkn.styrkefkn mu0 sigma2 m alpha riktning mu_sant =
      Except.error (Styrkefkn.errMsgStyrke riktning) := by
  have h1 : alternativ ≠ "muskatt" := fun h => hA (by simp [h])
  have h2 : alternativ ≠ "sigmaskatt" := fun h => hA (by simp [h])
  have h3 : alternativ ≠ "konfint" := fun h => hA (by simp [h])
  have h4 : riktning ≠ "<" := fun h => hR (by simp [h])
  have h5 : riktning ≠ ">" := fun h => hR (by simp [h])
  have h6 : riktning ≠ "!=" := fun h => hR (by simp [h])
  constructor
  · unfold Skattningar.skattningar
    rw [if_neg h1, if_neg h2, if_neg h3]
  · unfold Styrkefkn.styrkefkn
    rw [if_neg h4, if_neg h5, if_neg h6]

/-- Witness for the amended C7 at mode `"bogus"` and direction `"~="`. -/
theorem C7_amended_witness :
    ("bogus" ∉ (["muskatt", "sigmaskatt", "konfint"] : List String) ∧
      "~=" ∉ (["!=", "<", ">"] : List String)) ∧
    (Skattningar.skattningar 0 1 (fun _ => 10) "bogus" (fun _ _ _ => 0) =
      Except.error (Skattningar.errMsgSkat "bogus") ∧
    Styrkefkn.styrkefkn 0 1 25 (1 / 20) "~=" none =
      Except.error (Styrkefkn.errMsgStyrke "~=")) :=
  ⟨⟨by decide, by decide⟩,
    C7_amended_invalid_enum_rejected 0 1 (fun _ => 10) "bogus"
      (fun _ _ _ => 0) 0 1 25 (1 / 20) "~=" none (by decide) (by decide)⟩
